import Mathlib

/-!
Verification development for the Vi-style modal key-sequence interpreter of
the reedline line-editing library (src/edit_mode/vi/mod.rs).  The mode
dispatcher Vi::parse_event is embedded directly from the source; the grammar
parser, keybinding table, command lowering and raw-event types live in sibling
modules that are not part of the inspected sources and are modelled from the
specification, as marked on each definition.
-/

namespace Reedline

/-- ASCII lower-casing, embedding Rust's char::to_ascii_lowercase. -/
def toAsciiLower (c : Char) : Char :=
  if 'A' ≤ c ∧ c ≤ 'Z' then Char.ofNat (c.toNat + 32) else c

/-- ASCII upper-casing, embedding Rust's char::to_ascii_uppercase. -/
def toAsciiUpper (c : Char) : Char :=
  if 'a' ≤ c ∧ c ≤ 'z' then Char.ofNat (c.toNat - 32) else c

/-- Modelled from the spec: the modifier set of a key event is drawn from
shift, control and alt and their combinations (the crossterm KeyModifiers
bitflag type is not under src). -/
structure KeyModifiers where
  shift : Bool
  control : Bool
  alt : Bool
deriving DecidableEq

/-- The empty modifier set. -/
def KeyModifiers.NONE : KeyModifiers := ⟨false, false, false⟩

/-- The modifier set holding exactly shift. -/
def KeyModifiers.SHIFT : KeyModifiers := ⟨true, false, false⟩

/-- The modifier set holding exactly control and alt. -/
def KeyModifiers.CTRL_ALT : KeyModifiers := ⟨false, true, true⟩

/-- The modifier set holding exactly control, alt and shift. -/
def KeyModifiers.CTRL_ALT_SHIFT : KeyModifiers := ⟨true, true, true⟩

/-- Modelled from the spec: key codes are printable characters, Escape, Enter
and further named keys, which are opaque to the dispatcher (the crossterm
KeyCode type is not under src). -/
inductive KeyCode where
  | char (c : Char)
  | esc
  | enter
  | other (id : Nat)
deriving DecidableEq

/-- Modelled from the spec: the operators d, c, y of the sequence grammar
(command.rs is not under src). -/
inductive ViOperator where
  | delete
  | change
  | yank
deriving DecidableEq

/-- Modelled from the spec: the character-wise motions h, l, 0, caret, dollar,
w, b, e, W, B, E and the find/till motions f, F, t, T with their literal
target character (motion.rs is not under src). -/
inductive Motion where
  | left
  | right
  | lineStart
  | firstNonBlank
  | lineEnd
  | wordRight
  | wordLeft
  | wordEnd
  | bigWordRight
  | bigWordLeft
  | bigWordEnd
  | findForward (t : Char)
  | findBackward (t : Char)
  | tillForward (t : Char)
  | tillBackward (t : Char)
deriving DecidableEq

/-- Modelled from the spec: the mode-entry commands i, a, o, O, I, A
(command.rs is not under src). -/
inductive InsertEntry where
  | before
  | after
  | lineBelow
  | lineAbove
  | atLineStart
  | atLineEnd
deriving DecidableEq

/-- Modelled from the spec: a parsed command carries an optional leading
count, an optional operator with optional embedded motion count, a
motion-or-line target or a mode-entry or repeat-search command
(parser.rs and command.rs are not under src). -/
inductive ViCommand where
  | move (count : Nat) (m : Motion)
  | opMotion (op : ViOperator) (count : Nat) (m : Motion)
  | opLines (op : ViOperator) (count : Nat)
  | enterInsert (count : Nat) (k : InsertEntry)
  | repeatFind (count : Nat) (invert : Bool)
deriving DecidableEq

/-- Modelled from the spec: the grammar classifies a character buffer as
invalid, incomplete, or complete with a structured command. -/
inductive ViParse where
  | invalid
  | incomplete
  | complete (cmd : ViCommand)
deriving DecidableEq

/-- Modelled from the spec: the char-search memory holds direction, target
character and inclusivity of the last find/till motion (motion.rs is not
under src). -/
structure ViCharSearch where
  forward : Bool
  target : Char
  inclusive : Bool
deriving DecidableEq

/-- Modelled from the spec: edit commands consumed by the line editor; the
payload is opaque beyond what section 4.3 of the spec distinguishes
(enums.rs is not under src). -/
inductive EditCommand where
  | insertChar (c : Char)
  | insertString (s : List Char)
  | moveLeft
  | moveRight
  | moveToLineStart
  | moveToFirstNonBlank
  | moveToLineEnd
  | moveWordRight
  | moveWordLeft
  | moveWordEnd
  | moveBigWordRight
  | moveBigWordLeft
  | moveBigWordEnd
  | moveRightUntil (c : Char)
  | moveRightBefore (c : Char)
  | moveLeftUntil (c : Char)
  | moveLeftBefore (c : Char)
  | openLineBelow
  | openLineAbove
  | operatorRange (op : ViOperator) (count : Nat) (m : Motion)
  | operatorLines (op : ViOperator) (count : Nat)
deriving DecidableEq

/-- Modelled from the spec: the discriminated output event union of the
dispatcher (enums.rs is not under src). -/
inductive ReedlineEvent where
  | none
  | esc
  | enter
  | repaint
  | left
  | mouse
  | clearScreen
  | ctrlD
  | resize (w : Nat) (h : Nat)
  | edit (cmds : List EditCommand)
  | multiple (evs : List ReedlineEvent)

/-- Modelled from the spec: a keybinding table is a finite map from a
modifier set and key code to an output event (keybindings.rs is not under
src). -/
abbrev Keybindings := List ((KeyModifiers × KeyCode) × ReedlineEvent)

/-- Modelled from the spec: lookup is exact-set-match only, no wildcard or
fallback (section 4.4). -/
def Keybindings.findBinding : Keybindings → KeyModifiers → KeyCode → Option ReedlineEvent
  | [], _, _ => Option.none
  | ((m, k), e) :: rest, mods, code =>
    if m = mods ∧ k = code then some e else Keybindings.findBinding rest mods code

/-- Modelled from the spec: the raw input event union delivered by the
terminal layer (the crossterm Event type is not under src). -/
inductive RawEvent where
  | key (mods : KeyModifiers) (code : KeyCode)
  | mouse
  | resize (w : Nat) (h : Nat)
  | focusGained
  | focusLost
  | paste (body : List Char)

/-- Embedding of the ViMode enum of mod.rs. -/
inductive ViMode where
  | normal
  | insert
deriving DecidableEq

/-- Embedding of the Vi struct of mod.rs: cache, the two keybinding tables,
mode, previous event, char-search memory and the sequence-completed flag. -/
structure Vi where
  cache : List Char
  insert_keybindings : Keybindings
  normal_keybindings : Keybindings
  mode : ViMode
  previous : Option ReedlineEvent
  last_char_search : Option ViCharSearch
  seq_completed : Bool

/-- Embedding of Vi::new together with Default for Vi (mod.rs lines 36-58):
the two tables are supplied, every other field takes its default. -/
def Vi.new (insert_kb normal_kb : Keybindings) : Vi :=
  { cache := []
    insert_keybindings := insert_kb
    normal_keybindings := normal_kb
    mode := ViMode.insert
    previous := Option.none
    last_char_search := Option.none
    seq_completed := true }

/-- Modelled from the spec: the operator characters of the grammar. -/
def charToOperator : Char → Option ViOperator := fun c =>
  match c with
  | 'd' => some ViOperator.delete
  | 'c' => some ViOperator.change
  | 'y' => some ViOperator.yank
  | _ => Option.none

/-- Modelled from the spec: the single-character motions of the grammar. -/
def simpleMotion : Char → Option Motion := fun c =>
  match c with
  | 'h' => some Motion.left
  | 'l' => some Motion.right
  | '0' => some Motion.lineStart
  | '^' => some Motion.firstNonBlank
  | '$' => some Motion.lineEnd
  | 'w' => some Motion.wordRight
  | 'b' => some Motion.wordLeft
  | 'e' => some Motion.wordEnd
  | 'W' => some Motion.bigWordRight
  | 'B' => some Motion.bigWordLeft
  | 'E' => some Motion.bigWordEnd
  | _ => Option.none

/-- Modelled from the spec: the mode-entry command characters. -/
def insertEntryOf : Char → Option InsertEntry := fun c =>
  match c with
  | 'i' => some InsertEntry.before
  | 'a' => some InsertEntry.after
  | 'o' => some InsertEntry.lineBelow
  | 'O' => some InsertEntry.lineAbove
  | 'I' => some InsertEntry.atLineStart
  | 'A' => some InsertEntry.atLineEnd
  | _ => Option.none

/-- Numeric value of an ASCII digit. -/
def digitVal (c : Char) : Nat := c.toNat - 48

/-- Accumulate further digits of a count. -/
def parseCountAux : Nat → List Char → Nat × List Char
  | acc, [] => (acc, [])
  | acc, c :: rest =>
    if c.isDigit then parseCountAux (acc * 10 + digitVal c) rest else (acc, c :: rest)

/-- Modelled from the spec: a count is one or more digits with a nonzero
leading digit, so a leading 0 is never a count. -/
def parseCount : List Char → Option Nat × List Char
  | [] => (Option.none, [])
  | c :: rest =>
    if '1' ≤ c ∧ c ≤ '9' then
      let p := parseCountAux (digitVal c) rest
      (some p.1, p.2)
    else (Option.none, c :: rest)

/-- Result of reading one motion from the front of a buffer. -/
inductive MotionParse where
  | invalid
  | incomplete
  | found (m : Motion) (rest : List Char)

/-- Modelled from the spec: read one motion; f, F, t, T require exactly one
following literal target character and are incomplete without it. -/
def parseMotion : List Char → MotionParse
  | [] => MotionParse.incomplete
  | c :: rest =>
    match simpleMotion c with
    | some m => MotionParse.found m rest
    | Option.none =>
      if c = 'f' then
        match rest with
        | [] => MotionParse.incomplete
        | t :: r => MotionParse.found (Motion.findForward t) r
      else if c = 'F' then
        match rest with
        | [] => MotionParse.incomplete
        | t :: r => MotionParse.found (Motion.findBackward t) r
      else if c = 't' then
        match rest with
        | [] => MotionParse.incomplete
        | t :: r => MotionParse.found (Motion.tillForward t) r
      else if c = 'T' then
        match rest with
        | [] => MotionParse.incomplete
        | t :: r => MotionParse.found (Motion.tillBackward t) r
      else MotionParse.invalid

/-- Modelled from the spec: the whole-buffer grammar of section 4.2,
count? (operator (count? motion | operator) | motion | mode-entry |
repeat-search); an operator's own count and its motion's count multiply;
a doubled operator means whole lines (parser.rs is not under src). -/
def parse (input : List Char) : ViParse :=
  let p1 := parseCount input
  let cnt1 := p1.1.getD 1
  match p1.2 with
  | [] => ViParse.incomplete
  | c :: rest =>
    match charToOperator c with
    | some op =>
      let p2 := parseCount rest
      match p2.2 with
      | [] => ViParse.incomplete
      | d :: rest2 =>
        if d = c ∧ p2.1 = Option.none then
          match rest2 with
          | [] => ViParse.complete (ViCommand.opLines op cnt1)
          | _ :: _ => ViParse.invalid
        else
          match parseMotion (d :: rest2) with
          | MotionParse.found m [] =>
            ViParse.complete (ViCommand.opMotion op (cnt1 * p2.1.getD 1) m)
          | MotionParse.found _ (_ :: _) => ViParse.invalid
          | MotionParse.incomplete => ViParse.incomplete
          | MotionParse.invalid => ViParse.invalid
    | Option.none =>
      match parseMotion (c :: rest) with
      | MotionParse.found m [] => ViParse.complete (ViCommand.move cnt1 m)
      | MotionParse.found _ (_ :: _) => ViParse.invalid
      | MotionParse.incomplete => ViParse.incomplete
      | MotionParse.invalid =>
        match insertEntryOf c with
        | some k =>
          match rest with
          | [] => ViParse.complete (ViCommand.enterInsert cnt1 k)
          | _ :: _ => ViParse.invalid
        | Option.none =>
          if c = ';' then
            match rest with
            | [] => ViParse.complete (ViCommand.repeatFind cnt1 false)
            | _ :: _ => ViParse.invalid
          else if c = ',' then
            match rest with
            | [] => ViParse.complete (ViCommand.repeatFind cnt1 true)
            | _ :: _ => ViParse.invalid
          else ViParse.invalid

/-- Modelled from the spec: a result is valid unless it is invalid. -/
def ViParse.isValid : ViParse → Bool
  | ViParse.invalid => false
  | _ => true

/-- Modelled from the spec: a result is complete exactly when it carries a
complete command. -/
def ViParse.isComplete : ViParse → Bool
  | ViParse.complete _ => true
  | _ => false

/-- Modelled from the spec: mode-entry commands and the change operator
signal that the command enters insert mode. -/
def ViCommand.entersInsert : ViCommand → Bool
  | ViCommand.enterInsert _ _ => true
  | ViCommand.opMotion ViOperator.change _ _ => true
  | ViCommand.opLines ViOperator.change _ => true
  | _ => false

/-- Modelled from the spec: the char-search record of a find/till motion. -/
def Motion.charSearch : Motion → Option ViCharSearch
  | Motion.findForward t => some ⟨true, t, true⟩
  | Motion.findBackward t => some ⟨false, t, true⟩
  | Motion.tillForward t => some ⟨true, t, false⟩
  | Motion.tillBackward t => some ⟨false, t, false⟩
  | _ => Option.none

/-- Modelled from the spec: the edit command of a single motion step. -/
def Motion.toEdit : Motion → EditCommand
  | Motion.left => EditCommand.moveLeft
  | Motion.right => EditCommand.moveRight
  | Motion.lineStart => EditCommand.moveToLineStart
  | Motion.firstNonBlank => EditCommand.moveToFirstNonBlank
  | Motion.lineEnd => EditCommand.moveToLineEnd
  | Motion.wordRight => EditCommand.moveWordRight
  | Motion.wordLeft => EditCommand.moveWordLeft
  | Motion.wordEnd => EditCommand.moveWordEnd
  | Motion.bigWordRight => EditCommand.moveBigWordRight
  | Motion.bigWordLeft => EditCommand.moveBigWordLeft
  | Motion.bigWordEnd => EditCommand.moveBigWordEnd
  | Motion.findForward t => EditCommand.moveRightUntil t
  | Motion.findBackward t => EditCommand.moveLeftUntil t
  | Motion.tillForward t => EditCommand.moveRightBefore t
  | Motion.tillBackward t => EditCommand.moveLeftBefore t

/-- Modelled from the spec: the stored search replayed, with the direction
inverted for the comma command. -/
def ViCharSearch.toEdit (cs : ViCharSearch) (invert : Bool) : EditCommand :=
  let fwd := if invert then !cs.forward else cs.forward
  if fwd then
    if cs.inclusive then EditCommand.moveRightUntil cs.target
    else EditCommand.moveRightBefore cs.target
  else
    if cs.inclusive then EditCommand.moveLeftUntil cs.target
    else EditCommand.moveLeftBefore cs.target

/-- Modelled from the spec: the cursor-adjustment events of a mode-entry
command (the mode switch itself is performed by the dispatcher). -/
def InsertEntry.toEvents : InsertEntry → List ReedlineEvent
  | InsertEntry.before => []
  | InsertEntry.after => [ReedlineEvent.edit [EditCommand.moveRight]]
  | InsertEntry.lineBelow => [ReedlineEvent.edit [EditCommand.openLineBelow]]
  | InsertEntry.lineAbove => [ReedlineEvent.edit [EditCommand.openLineAbove]]
  | InsertEntry.atLineStart => [ReedlineEvent.edit [EditCommand.moveToFirstNonBlank]]
  | InsertEntry.atLineEnd => [ReedlineEvent.edit [EditCommand.moveToLineEnd]]

/-- Overwrite the char-search memory when the motion is a find/till motion. -/
def recordSearch (s : Vi) (m : Motion) : Vi :=
  match m.charSearch with
  | some cs => { s with last_char_search := some cs }
  | Option.none => s

/-- Modelled from the spec: lowering of a completed command (section 4.3);
it reads and overwrites only the char-search memory of the state. -/
def ViCommand.toReedlineEvent : ViCommand → Vi → ReedlineEvent × Vi
  | ViCommand.move n m, s =>
    (ReedlineEvent.multiple (List.replicate n (ReedlineEvent.edit [m.toEdit])),
      recordSearch s m)
  | ViCommand.opMotion op n m, s =>
    (ReedlineEvent.edit [EditCommand.operatorRange op n m], recordSearch s m)
  | ViCommand.opLines op n, s =>
    (ReedlineEvent.edit [EditCommand.operatorLines op n], s)
  | ViCommand.enterInsert _ k, s => (ReedlineEvent.multiple k.toEvents, s)
  | ViCommand.repeatFind _ invert, s =>
    match s.last_char_search with
    | Option.none => (ReedlineEvent.none, s)
    | some cs => (ReedlineEvent.multiple [ReedlineEvent.edit [cs.toEdit invert]], s)

/-- Embedding of the parse-result handling of Vi::parse_event (mod.rs lines
83-98): set the flag from completeness, clear the cache on an invalid or
complete result, switch to insert mode when the command asks for it, and
lower a complete command. -/
def viParseHandle (s : Vi) (newCache : List Char) : ReedlineEvent × Vi :=
  let res := parse newCache
  let s1 : Vi := { s with cache := newCache, seq_completed := res.isComplete }
  match res with
  | ViParse.invalid => (ReedlineEvent.none, { s1 with cache := [] })
  | ViParse.incomplete => (ReedlineEvent.none, s1)
  | ViParse.complete cmd =>
    let s2 := if cmd.entersInsert then { s1 with mode := ViMode.insert } else s1
    let p := cmd.toReedlineEvent s2
    (p.1, { p.2 with cache := [] })

/-- Embedding of the Shift-casing of the cached character (mod.rs lines
77-81): upper-case exactly when the modifier set is exactly shift. -/
def viShiftCased (mods : KeyModifiers) (c : Char) : Char :=
  if mods = KeyModifiers.SHIFT then toAsciiUpper c else c

/-- Embedding of the normal-mode printable-character arm of Vi::parse_event
(mod.rs lines 67-103): lower-case, look up, and either feed the cache and
the grammar or fall back to the binding. -/
def viNormalChar (s : Vi) (mods : KeyModifiers) (c0 : Char) : ReedlineEvent × Vi :=
  let c := toAsciiLower c0
  let binding := s.normal_keybindings.findBinding mods (KeyCode.char c)
  if s.seq_completed = false ∨
      (binding.isNone = true ∧ (mods = KeyModifiers.NONE ∨ mods = KeyModifiers.SHIFT)) then
    viParseHandle s (s.cache ++ [viShiftCased mods c])
  else
    match binding with
    | some e => (e, s)
    | Option.none => (ReedlineEvent.none, s)

/-- Embedding of the insert-mode printable-character arm of Vi::parse_event
(mod.rs lines 105-141). -/
def viInsertChar (s : Vi) (mods : KeyModifiers) (c0 : Char) : ReedlineEvent × Vi :=
  let c := if mods = KeyModifiers.NONE then c0 else toAsciiLower c0
  match s.insert_keybindings.findBinding mods (KeyCode.char c) with
  | some e => (e, s)
  | Option.none =>
    if mods = KeyModifiers.NONE ∨ mods = KeyModifiers.SHIFT ∨
        mods = KeyModifiers.CTRL_ALT ∨ mods = KeyModifiers.CTRL_ALT_SHIFT then
      (ReedlineEvent.edit [EditCommand.insertChar (viShiftCased mods c)], s)
    else (ReedlineEvent.none, s)

/-- Embedding of the bare-Escape arm of Vi::parse_event (mod.rs lines
142-155). -/
def viEsc (s : Vi) : ReedlineEvent × Vi :=
  let s1 : Vi := { s with cache := [] }
  if s1.mode = ViMode.insert then
    (ReedlineEvent.multiple [ReedlineEvent.left, ReedlineEvent.esc, ReedlineEvent.repaint],
      { s1 with mode := ViMode.normal })
  else
    (ReedlineEvent.multiple [ReedlineEvent.none, ReedlineEvent.esc, ReedlineEvent.repaint],
      s1)

/-- Embedding of the bare-Enter arm of Vi::parse_event (mod.rs lines
156-159). -/
def viEnter (s : Vi) : ReedlineEvent × Vi :=
  (ReedlineEvent.enter, { s with mode := ViMode.insert })

/-- Embedding of the fallback keybinding arms of Vi::parse_event (mod.rs
lines 160-167): look up in the active mode's table. -/
def viFallback (s : Vi) (mods : KeyModifiers) (code : KeyCode) : ReedlineEvent × Vi :=
  match s.mode with
  | ViMode.normal => ((s.normal_keybindings.findBinding mods code).getD ReedlineEvent.none, s)
  | ViMode.insert => ((s.insert_keybindings.findBinding mods code).getD ReedlineEvent.none, s)

/-- The active mode's keybinding table, as selected by the fallback arms of
Vi::parse_event. -/
def Vi.activeKeybindings (s : Vi) : Keybindings :=
  match s.mode with
  | ViMode.normal => s.normal_keybindings
  | ViMode.insert => s.insert_keybindings

/-- Embedding of the paste normalization of Vi::parse_event line 175: every
CRLF pair becomes a line feed, scanning left to right without overlap. -/
def replaceCRLF : List Char → List Char
  | [] => []
  | '\r' :: '\n' :: rest => '\n' :: replaceCRLF rest
  | c :: rest => c :: replaceCRLF rest

/-- Embedding of the paste normalization of Vi::parse_event line 175: every
remaining bare CR becomes a line feed. -/
def replaceCR (l : List Char) : List Char :=
  l.map fun c => if c = '\r' then '\n' else c

/-- Embedding of Vi::parse_event (mod.rs lines 62-178), with the state
threaded explicitly: the returned pair is the emitted event and the updated
interpreter state. -/
def Vi.parseEvent (s : Vi) (ev : RawEvent) : ReedlineEvent × Vi :=
  match ev with
  | RawEvent.key mods code =>
    match s.mode, code with
    | ViMode.normal, KeyCode.char c => viNormalChar s mods c
    | ViMode.insert, KeyCode.char c => viInsertChar s mods c
    | _, KeyCode.esc =>
      if mods = KeyModifiers.NONE then viEsc s else viFallback s mods KeyCode.esc
    | _, KeyCode.enter =>
      if mods = KeyModifiers.NONE then viEnter s else viFallback s mods KeyCode.enter
    | _, KeyCode.other i => viFallback s mods (KeyCode.other i)
  | RawEvent.mouse => (ReedlineEvent.mouse, s)
  | RawEvent.resize w h => (ReedlineEvent.resize w h, s)
  | RawEvent.focusGained => (ReedlineEvent.none, s)
  | RawEvent.focusLost => (ReedlineEvent.none, s)
  | RawEvent.paste body =>
    (ReedlineEvent.edit [EditCommand.insertString (replaceCR (replaceCRLF body))], s)

/-- States reachable from a freshly constructed interpreter by any sequence
of raw input events. -/
inductive Reachable : Vi → Prop where
  | init (ikb nkb : Keybindings) : Reachable (Vi.new ikb nkb)
  | step (s : Vi) (e : RawEvent) : Reachable s → Reachable (s.parseEvent e).2

/-- Feed a list of plain (unmodified) printable keys, collecting the emitted
events. -/
def viRunChars : Vi → List Char → List ReedlineEvent × Vi
  | s, [] => ([], s)
  | s, c :: rest =>
    let p := s.parseEvent (RawEvent.key KeyModifiers.NONE (KeyCode.char c))
    let q := viRunChars p.2 rest
    (p.1 :: q.1, q.2)

/-- The cache contents handed to the grammar at each keystroke of a plain
character run. -/
def viCacheTrace : Vi → List Char → List (List Char)
  | _, [] => []
  | s, c :: rest =>
    (s.cache ++ [toAsciiLower c]) ::
      viCacheTrace ((s.parseEvent (RawEvent.key KeyModifiers.NONE (KeyCode.char c))).2) rest




lemma NONE_ne_SHIFT : KeyModifiers.NONE ≠ KeyModifiers.SHIFT := by decide

lemma viParseHandle_invalid (s : Vi) (nc : List Char) (h : parse nc = ViParse.invalid) :
    viParseHandle s nc =
      (ReedlineEvent.none, { s with cache := [], seq_completed := false }) := by
  simp [viParseHandle, h, ViParse.isComplete]

lemma viParseHandle_incomplete (s : Vi) (nc : List Char) (h : parse nc = ViParse.incomplete) :
    viParseHandle s nc =
      (ReedlineEvent.none, { s with cache := nc, seq_completed := false }) := by
  simp [viParseHandle, h, ViParse.isComplete]

lemma viParseHandle_complete_cache (s : Vi) (nc : List Char) (cmd : ViCommand)
    (h : parse nc = ViParse.complete cmd) : ((viParseHandle s nc).2).cache = [] := by
  simp [viParseHandle, h]

lemma toReedlineEvent_frame (cmd : ViCommand) (s : Vi) :
    ((cmd.toReedlineEvent s).2).insert_keybindings = s.insert_keybindings ∧
    ((cmd.toReedlineEvent s).2).normal_keybindings = s.normal_keybindings ∧
    ((cmd.toReedlineEvent s).2).previous = s.previous := by
  cases cmd with
  | move n m => cases hm : m.charSearch <;>
      simp [ViCommand.toReedlineEvent, recordSearch, hm]
  | opMotion op n m => cases hm : m.charSearch <;>
      simp [ViCommand.toReedlineEvent, recordSearch, hm]
  | opLines op n => simp [ViCommand.toReedlineEvent]
  | enterInsert n k => simp [ViCommand.toReedlineEvent]
  | repeatFind n invert => cases hl : s.last_char_search <;>
      simp [ViCommand.toReedlineEvent, hl]

lemma viParseHandle_frame (s : Vi) (nc : List Char) :
    ((viParseHandle s nc).2).insert_keybindings = s.insert_keybindings ∧
    ((viParseHandle s nc).2).normal_keybindings = s.normal_keybindings ∧
    ((viParseHandle s nc).2).previous = s.previous := by
  cases hp : parse nc with
  | invalid => simp [viParseHandle_invalid s nc hp]
  | incomplete => simp [viParseHandle_incomplete s nc hp]
  | complete cmd =>
    simp only [viParseHandle, hp]
    cases hins : cmd.entersInsert <;> simp [hins] <;>
      exact ⟨(toReedlineEvent_frame cmd _).1, (toReedlineEvent_frame cmd _).2.1,
        (toReedlineEvent_frame cmd _).2.2⟩

lemma vi_frame (s : Vi) (e : RawEvent) :
    ((s.parseEvent e).2).insert_keybindings = s.insert_keybindings ∧
    ((s.parseEvent e).2).normal_keybindings = s.normal_keybindings ∧
    ((s.parseEvent e).2).previous = s.previous := by
  cases e with
  | key mods code =>
    cases code with
    | char c =>
      cases hm : s.mode with
      | normal =>
        simp only [Vi.parseEvent, hm, viNormalChar]
        split
        · exact viParseHandle_frame _ _
        · split <;> simp
      | insert =>
        simp only [Vi.parseEvent, hm, viInsertChar]
        split
        · simp
        · split <;> simp
    | esc =>
      cases hm : s.mode <;> simp only [Vi.parseEvent, hm] <;> split <;>
        simp [viEsc, viFallback, hm]
    | enter =>
      cases hm : s.mode <;> simp only [Vi.parseEvent, hm] <;> split <;>
        simp [viEnter, viFallback, hm]
    | other i =>
      cases hm : s.mode <;> simp [Vi.parseEvent, hm, viFallback]
  | mouse => simp [Vi.parseEvent]
  | resize w h => simp [Vi.parseEvent]
  | focusGained => simp [Vi.parseEvent]
  | focusLost => simp [Vi.parseEvent]
  | paste body => simp [Vi.parseEvent]

lemma inv_step (s : Vi) (e : RawEvent)
    (ih : s.seq_completed = true → s.cache = []) :
    ((s.parseEvent e).2).seq_completed = true → ((s.parseEvent e).2).cache = [] := by
  cases e with
  | key mods code =>
    cases code with
    | char c =>
      cases hm : s.mode with
      | normal =>
        simp only [Vi.parseEvent, hm, viNormalChar]
        split
        · generalize s.cache ++ [_] = nc
          cases hp : parse nc with
          | invalid => simp [viParseHandle_invalid s nc hp]
          | incomplete => simp [viParseHandle_incomplete s nc hp]
          | complete cmd => intro _; exact viParseHandle_complete_cache s nc cmd hp
        · split <;> exact ih
      | insert =>
        simp only [Vi.parseEvent, hm, viInsertChar]
        split
        · exact ih
        · split <;> exact ih
    | esc =>
      cases hm : s.mode <;> simp only [Vi.parseEvent, hm] <;> split <;>
        simp [viEsc, viFallback, hm] <;> exact ih
    | enter =>
      cases hm : s.mode <;> simp only [Vi.parseEvent, hm] <;> split <;>
        simp [viEnter, viFallback, hm] <;> exact ih
    | other i =>
      cases hm : s.mode <;> simp [Vi.parseEvent, hm, viFallback] <;> exact ih
  | mouse => exact ih
  | resize w h => exact ih
  | focusGained => exact ih
  | focusLost => exact ih
  | paste body => exact ih

lemma vi_inv (s : Vi) (h : Reachable s) : s.seq_completed = true → s.cache = [] := by
  induction h with
  | init ikb nkb => intro _; rfl
  | step s e _ ih => exact inv_step s e ih

lemma parseEvent_normal_none_char {s : Vi} {c : Char}
    (hm : s.mode = ViMode.normal)
    (hb : s.normal_keybindings.findBinding KeyModifiers.NONE
      (KeyCode.char (toAsciiLower c)) = Option.none) :
    s.parseEvent (RawEvent.key KeyModifiers.NONE (KeyCode.char c)) =
      viParseHandle s (s.cache ++ [toAsciiLower c]) := by
  simp [Vi.parseEvent, hm, viNormalChar, hb, viShiftCased, NONE_ne_SHIFT]

lemma getLast?_cons_of_ne_nil {α : Type} (a : α) (l : List α) (h : l ≠ []) :
    (a :: l).getLast? = l.getLast? := by
  cases l with
  | nil => exact absurd rfl h
  | cons b bs => exact List.getLast?_cons_cons

lemma viRun_noop (cs : List Char) : ∀ s : Vi, s.mode = ViMode.normal →
    (∀ c ∈ cs, s.normal_keybindings.findBinding KeyModifiers.NONE
      (KeyCode.char (toAsciiLower c)) = Option.none) →
    (∀ t ∈ viCacheTrace s cs, (parse t).isComplete = false) →
    (viRunChars s cs).1 = List.replicate cs.length ReedlineEvent.none ∧
    (∀ tl, (viCacheTrace s cs).getLast? = some tl → (parse tl).isValid = false →
      ((viRunChars s cs).2).cache = []) := by
  induction cs with
  | nil =>
    intro s _ _ _
    exact ⟨rfl, by intro tl h; simp [viCacheTrace] at h⟩
  | cons c rest ih =>
    intro s hm hb ht
    have hstep : s.parseEvent (RawEvent.key KeyModifiers.NONE (KeyCode.char c)) =
        viParseHandle s (s.cache ++ [toAsciiLower c]) :=
      parseEvent_normal_none_char hm (hb c (by simp))
    have hhead : (parse (s.cache ++ [toAsciiLower c])).isComplete = false :=
      ht _ (by simp [viCacheTrace])
    cases hp : parse (s.cache ++ [toAsciiLower c]) with
    | complete cmd => rw [hp] at hhead; simp [ViParse.isComplete] at hhead
    | invalid =>
      have hs' : (s.parseEvent (RawEvent.key KeyModifiers.NONE (KeyCode.char c))).2 =
          { s with cache := [], seq_completed := false } := by
        rw [hstep, viParseHandle_invalid s _ hp]
      have hout : (s.parseEvent (RawEvent.key KeyModifiers.NONE (KeyCode.char c))).1 =
          ReedlineEvent.none := by
        rw [hstep, viParseHandle_invalid s _ hp]
      obtain ⟨ih1, ih2⟩ := ih { s with cache := [], seq_completed := false } hm
        (fun c' hc' => hb c' (List.mem_cons_of_mem _ hc'))
        (fun t htm => ht t (by
          simp only [viCacheTrace, hs']
          exact List.mem_cons_of_mem _ htm))
      constructor
      · simp only [viRunChars, hs', hout, ih1, List.length_cons, List.replicate_succ]
      · intro tl hlast hval
        simp only [viCacheTrace, hs'] at hlast
        simp only [viRunChars, hs']
        cases rest with
        | nil =>
          simp [viRunChars]
        | cons r rs =>
          rw [getLast?_cons_of_ne_nil _ _ (by simp [viCacheTrace])] at hlast
          exact ih2 tl hlast hval
    | incomplete =>
      have hs' : (s.parseEvent (RawEvent.key KeyModifiers.NONE (KeyCode.char c))).2 =
          { s with cache := s.cache ++ [toAsciiLower c], seq_completed := false } := by
        rw [hstep, viParseHandle_incomplete s _ hp]
      have hout : (s.parseEvent (RawEvent.key KeyModifiers.NONE (KeyCode.char c))).1 =
          ReedlineEvent.none := by
        rw [hstep, viParseHandle_incomplete s _ hp]
      obtain ⟨ih1, ih2⟩ := ih { s with cache := s.cache ++ [toAsciiLower c], seq_completed := false }
        hm (fun c' hc' => hb c' (List.mem_cons_of_mem _ hc'))
        (fun t htm => ht t (by
          simp only [viCacheTrace, hs']
          exact List.mem_cons_of_mem _ htm))
      constructor
      · simp only [viRunChars, hs', hout, ih1, List.length_cons, List.replicate_succ]
      · intro tl hlast hval
        simp only [viCacheTrace, hs'] at hlast
        simp only [viRunChars, hs']
        cases rest with
        | nil =>
          simp only [viCacheTrace, List.getLast?_singleton, Option.some.injEq] at hlast
          subst hlast
          rw [hp] at hval
          simp [ViParse.isValid] at hval
        | cons r rs =>
          rw [getLast?_cons_of_ne_nil _ _ (by simp [viCacheTrace])] at hlast
          exact ih2 tl hlast hval

/-! Concrete states used by witnesses and counterexamples. -/

/-- A freshly constructed interpreter with empty tables, switched to Normal
mode. -/
def viN : Vi := { Vi.new [] [] with mode := ViMode.normal }

/-- A freshly constructed interpreter with empty tables (Insert mode). -/
def viI : Vi := Vi.new [] []

/-- A bare Escape key event. -/
def rawEscNone : RawEvent := RawEvent.key KeyModifiers.NONE KeyCode.esc

/-- A plain d key event. -/
def rawDNone : RawEvent := RawEvent.key KeyModifiers.NONE (KeyCode.char 'd')

/-- The state reached from a fresh interpreter by Escape, then d, then
Escape: the pending operator is abandoned by Escape. -/
def viC2state : Vi :=
  ((((Vi.new [] []).parseEvent rawEscNone).2.parseEvent rawDNone).2.parseEvent rawEscNone).2

/-- A Normal-mode interpreter whose normal table binds shift + dollar. -/
def viC5ok : Vi :=
  { Vi.new [] [((KeyModifiers.SHIFT, KeyCode.char '$'), ReedlineEvent.ctrlD)] with
    mode := ViMode.normal }

/-- A Normal-mode interpreter whose normal table binds shift + uppercase B. -/
def viC5bad : Vi :=
  { Vi.new [] [((KeyModifiers.SHIFT, KeyCode.char 'B'), ReedlineEvent.clearScreen)] with
    mode := ViMode.normal }

/-- C1: for a printable character in Normal mode, if a sequence is already
pending, or no direct binding exists for the lower-cased character while the
modifier set is exactly none or exactly shift, the Shift-cased character is
appended to the cache and the grammar handler runs on the whole cache;
otherwise a found binding is emitted and a missing one yields no-op, the
state unchanged either way. -/
theorem c1_normal_char_dispatch (s : Vi) (mods : KeyModifiers) (c : Char)
    (hm : s.mode = ViMode.normal) :
    (s.seq_completed = false ∨
        ((s.normal_keybindings.findBinding mods (KeyCode.char (toAsciiLower c))).isNone = true ∧
          (mods = KeyModifiers.NONE ∨ mods = KeyModifiers.SHIFT)) →
      s.parseEvent (RawEvent.key mods (KeyCode.char c)) =
        viParseHandle s (s.cache ++ [viShiftCased mods (toAsciiLower c)])) ∧
    (¬(s.seq_completed = false ∨
        ((s.normal_keybindings.findBinding mods (KeyCode.char (toAsciiLower c))).isNone = true ∧
          (mods = KeyModifiers.NONE ∨ mods = KeyModifiers.SHIFT))) →
      s.parseEvent (RawEvent.key mods (KeyCode.char c)) =
        ((s.normal_keybindings.findBinding mods (KeyCode.char (toAsciiLower c))).getD
          ReedlineEvent.none, s)) := by
  constructor
  · intro h
    simp only [Vi.parseEvent, hm, viNormalChar]
    rw [if_pos h]
  · intro h
    simp only [Vi.parseEvent, hm, viNormalChar]
    rw [if_neg h]
    cases hb : s.normal_keybindings.findBinding mods (KeyCode.char (toAsciiLower c)) <;>
      simp [hb]

/-- C1 witness: a plain d in a fresh Normal-mode state with no bindings takes
the sequence path. -/
theorem c1_witness :
    viN.mode = ViMode.normal ∧
    viN.parseEvent (RawEvent.key KeyModifiers.NONE (KeyCode.char 'd')) =
      viParseHandle viN ['d'] :=
  ⟨rfl, (c1_normal_char_dispatch viN KeyModifiers.NONE 'd' rfl).1 (Or.inr ⟨rfl, Or.inl rfl⟩)⟩

/-- C2 counterexample: after Escape, d, Escape from a fresh interpreter the
cache is empty while the sequence-completed flag is false, so the flag is not
equivalent to cache non-emptiness on reachable states. -/
theorem c2_counterexample :
    Reachable viC2state ∧ viC2state.cache = [] ∧ viC2state.seq_completed = false ∧
      ¬(viC2state.seq_completed = false ↔ viC2state.cache ≠ []) :=
  ⟨Reachable.step _ rawEscNone (Reachable.step _ rawDNone
      (Reachable.step _ rawEscNone (Reachable.init [] []))),
    rfl, rfl, fun h => (h.mp rfl) rfl⟩

/-- C2 (amended): in every reachable state, if the sequence-completed flag is
true then the input cache is empty; the converse direction of the claimed
equivalence fails. -/
theorem c2_flag_true_implies_cache_empty (s : Vi) (h : Reachable s)
    (hf : s.seq_completed = true) : s.cache = [] :=
  vi_inv s h hf

/-- C2 witness: the fresh interpreter itself. -/
theorem c2_witness :
    (Vi.new [] []).seq_completed = true ∧ (Vi.new [] []).cache = [] :=
  ⟨rfl, c2_flag_true_implies_cache_empty (Vi.new [] []) (Reachable.init [] []) rfl⟩

/-- C3 (amended): a bare Escape clears the cache; from Insert mode it sets
Normal mode and emits exactly the list move-left, escape, refresh; from
Normal mode it leaves the mode and emits exactly the list no-op, escape,
refresh, with a leading no-op placeholder. -/
theorem c3_escape (s : Vi) :
    (s.mode = ViMode.insert →
      s.parseEvent (RawEvent.key KeyModifiers.NONE KeyCode.esc) =
        (ReedlineEvent.multiple
          [ReedlineEvent.left, ReedlineEvent.esc, ReedlineEvent.repaint],
          { s with cache := [], mode := ViMode.normal })) ∧
    (s.mode = ViMode.normal →
      s.parseEvent (RawEvent.key KeyModifiers.NONE KeyCode.esc) =
        (ReedlineEvent.multiple
          [ReedlineEvent.none, ReedlineEvent.esc, ReedlineEvent.repaint],
          { s with cache := [] })) := by
  constructor <;> intro h <;> simp [Vi.parseEvent, h, viEsc]

/-- C3 witness: Escape in a fresh Normal-mode state. -/
theorem c3_witness :
    viN.mode = ViMode.normal ∧
    viN.parseEvent (RawEvent.key KeyModifiers.NONE KeyCode.esc) =
      (ReedlineEvent.multiple
        [ReedlineEvent.none, ReedlineEvent.esc, ReedlineEvent.repaint],
        { viN with cache := [] }) :=
  ⟨rfl, (c3_escape viN).2 rfl⟩

/-- C3 counterexample: in Normal mode the emitted list is no-op, escape,
refresh, not the two-element list escape, refresh. -/
theorem c3_counterexample :
    (viN.parseEvent (RawEvent.key KeyModifiers.NONE KeyCode.esc)).1 =
      ReedlineEvent.multiple
        [ReedlineEvent.none, ReedlineEvent.esc, ReedlineEvent.repaint] ∧
    ReedlineEvent.multiple [ReedlineEvent.none, ReedlineEvent.esc, ReedlineEvent.repaint] ≠
      ReedlineEvent.multiple [ReedlineEvent.esc, ReedlineEvent.repaint] :=
  ⟨rfl, by simp⟩

/-- C4: a bare Enter in any state sets the mode to Insert and emits exactly
the submit-line event, leaving every other component unchanged. -/
theorem c4_enter (s : Vi) :
    s.parseEvent (RawEvent.key KeyModifiers.NONE KeyCode.enter) =
      (ReedlineEvent.enter, { s with mode := ViMode.insert }) := by
  cases hm : s.mode <;> simp [Vi.parseEvent, hm, viEnter]

/-- C5 (amended): in Normal mode with no pending sequence the table lookup
uses the ASCII-lower-cased delivered character; when the table binds shift
together with that lower-cased character, the bound event is emitted exactly
and the state is untouched. -/
theorem c5_shift_binding (s : Vi) (c : Char) (e : ReedlineEvent)
    (hm : s.mode = ViMode.normal) (hs : s.seq_completed = true)
    (hb : s.normal_keybindings.findBinding KeyModifiers.SHIFT
      (KeyCode.char (toAsciiLower c)) = some e) :
    s.parseEvent (RawEvent.key KeyModifiers.SHIFT (KeyCode.char c)) = (e, s) := by
  simp [Vi.parseEvent, hm, viNormalChar, hb, hs]

/-- C5 witness: binding shift + dollar and delivering shift + dollar emits
the bound event, mirroring the repository's own test. -/
theorem c5_witness :
    viC5ok.normal_keybindings.findBinding KeyModifiers.SHIFT (KeyCode.char '$') =
      some ReedlineEvent.ctrlD ∧
    viC5ok.parseEvent (RawEvent.key KeyModifiers.SHIFT (KeyCode.char '$')) =
      (ReedlineEvent.ctrlD, viC5ok) :=
  ⟨rfl, c5_shift_binding viC5ok '$' ReedlineEvent.ctrlD rfl rfl rfl⟩

/-- C5 counterexample: a binding on the raw uppercase character shift + B is
never found, because the lookup lower-cases first; the keystroke instead
feeds the cache and the grammar emits the B motion, not the bound event. -/
theorem c5_counterexample :
    viC5bad.normal_keybindings.findBinding KeyModifiers.SHIFT (KeyCode.char 'B') =
      some ReedlineEvent.clearScreen ∧
    (viC5bad.parseEvent (RawEvent.key KeyModifiers.SHIFT (KeyCode.char 'B'))).1 =
      ReedlineEvent.multiple [ReedlineEvent.edit [EditCommand.moveBigWordLeft]] ∧
    ReedlineEvent.multiple [ReedlineEvent.edit [EditCommand.moveBigWordLeft]] ≠
      ReedlineEvent.clearScreen :=
  ⟨rfl, rfl, by simp⟩

/-- C6: on reachable states a non-empty cache implies a pending sequence;
the cache is cleared whenever the grammar reports an invalid or a complete
result; and a plain character run that never completes a command emits no-op
at every keystroke and ends with an empty cache when its last buffer is
invalid. -/
theorem c6_cache_pending_invariant (s : Vi) (cs : List Char)
    (hm : s.mode = ViMode.normal)
    (hb : ∀ c ∈ cs, s.normal_keybindings.findBinding KeyModifiers.NONE
      (KeyCode.char (toAsciiLower c)) = Option.none)
    (ht : ∀ t ∈ viCacheTrace s cs, (parse t).isComplete = false) :
    (∀ s2 : Vi, Reachable s2 → s2.cache ≠ [] → s2.seq_completed = false) ∧
    (∀ (s2 : Vi) (nc : List Char),
      (parse nc).isValid = false ∨ (parse nc).isComplete = true →
        ((viParseHandle s2 nc).2).cache = []) ∧
    (viRunChars s cs).1 = List.replicate cs.length ReedlineEvent.none ∧
    (∀ tl, (viCacheTrace s cs).getLast? = some tl → (parse tl).isValid = false →
      ((viRunChars s cs).2).cache = []) := by
  refine ⟨?_, ?_, (viRun_noop cs s hm hb ht).1, (viRun_noop cs s hm hb ht).2⟩
  · intro s2 h2 hne
    cases hfc : s2.seq_completed with
    | false => rfl
    | true => exact absurd (vi_inv s2 h2 hfc) hne
  · intro s2 nc hor
    cases hp : parse nc with
    | invalid => simp [viParseHandle_invalid s2 nc hp]
    | incomplete => rw [hp] at hor; simp [ViParse.isValid, ViParse.isComplete] at hor
    | complete cmd => exact viParseHandle_complete_cache s2 nc cmd hp

/-- C6 witness: the run d then q from a fresh Normal-mode state emits no-op
twice and ends with an empty cache. -/
theorem c6_witness :
    viN.mode = ViMode.normal ∧
    (viRunChars viN ['d', 'q']).1 = List.replicate 2 ReedlineEvent.none ∧
    ((viRunChars viN ['d', 'q']).2).cache = [] := by
  refine ⟨rfl, ?_, ?_⟩
  · exact (c6_cache_pending_invariant viN ['d', 'q'] rfl (fun c _ => rfl)
      (by decide)).2.2.1
  · exact (c6_cache_pending_invariant viN ['d', 'q'] rfl (fun c _ => rfl)
      (by decide)).2.2.2 ['d', 'q'] rfl rfl

/-- C7 (amended): in Insert mode the character is lower-cased whenever the
modifiers are not exactly none, the pair is looked up in the Insert table and
a found binding is emitted; otherwise the four admitted modifier sets insert
the literal character, upper-cased exactly when the modifier set is exactly
shift, and any other modifier set yields no-op. -/
theorem c7_insert_char (s : Vi) (mods : KeyModifiers) (c : Char)
    (hm : s.mode = ViMode.insert) :
    (∀ e, s.insert_keybindings.findBinding mods
        (KeyCode.char (if mods = KeyModifiers.NONE then c else toAsciiLower c)) = some e →
      s.parseEvent (RawEvent.key mods (KeyCode.char c)) = (e, s)) ∧
    (s.insert_keybindings.findBinding mods
        (KeyCode.char (if mods = KeyModifiers.NONE then c else toAsciiLower c)) = Option.none →
      ((mods = KeyModifiers.NONE ∨ mods = KeyModifiers.SHIFT ∨
          mods = KeyModifiers.CTRL_ALT ∨ mods = KeyModifiers.CTRL_ALT_SHIFT) →
        s.parseEvent (RawEvent.key mods (KeyCode.char c)) =
          (ReedlineEvent.edit [EditCommand.insertChar
            (viShiftCased mods (if mods = KeyModifiers.NONE then c else toAsciiLower c))],
            s)) ∧
      (¬(mods = KeyModifiers.NONE ∨ mods = KeyModifiers.SHIFT ∨
          mods = KeyModifiers.CTRL_ALT ∨ mods = KeyModifiers.CTRL_ALT_SHIFT) →
        s.parseEvent (RawEvent.key mods (KeyCode.char c)) = (ReedlineEvent.none, s))) := by
  refine ⟨fun e he => ?_, fun hb => ⟨fun hin => ?_, fun hout => ?_⟩⟩
  · simp [Vi.parseEvent, hm, viInsertChar, he]
  · simp only [Vi.parseEvent, hm, viInsertChar, hb]
    rw [if_pos hin]
  · simp only [Vi.parseEvent, hm, viInsertChar, hb]
    rw [if_neg hout]

/-- C7 witness: a plain x in a fresh Insert-mode state inserts x. -/
theorem c7_witness :
    viI.mode = ViMode.insert ∧
    viI.parseEvent (RawEvent.key KeyModifiers.NONE (KeyCode.char 'x')) =
      (ReedlineEvent.edit [EditCommand.insertChar 'x'], viI) :=
  ⟨rfl, ((c7_insert_char viI KeyModifiers.NONE 'x' rfl).2 rfl).1 (Or.inl rfl)⟩

/-- C7 counterexample: with control, alt and shift all held the inserted
character is the lower-cased b, not the upper-cased B the claim predicts for
a held shift. -/
theorem c7_counterexample :
    KeyModifiers.CTRL_ALT_SHIFT.shift = true ∧
    (viI.parseEvent (RawEvent.key KeyModifiers.CTRL_ALT_SHIFT (KeyCode.char 'B'))).1 =
      ReedlineEvent.edit [EditCommand.insertChar 'b'] ∧
    ReedlineEvent.edit [EditCommand.insertChar 'b'] ≠
      ReedlineEvent.edit [EditCommand.insertChar 'B'] :=
  ⟨rfl, rfl, by simp⟩

/-- C8: non-key events map to the mouse notification, the resize
notification with the same width and height, no-op for focus changes, and an
insert-string whose payload normalizes CRLF pairs and then bare CRs to line
feeds; the state is unchanged in every case. -/
theorem c8_nonkey_events (s : Vi) (w h : Nat) (body : List Char) :
    s.parseEvent RawEvent.mouse = (ReedlineEvent.mouse, s) ∧
    s.parseEvent (RawEvent.resize w h) = (ReedlineEvent.resize w h, s) ∧
    s.parseEvent RawEvent.focusGained = (ReedlineEvent.none, s) ∧
    s.parseEvent RawEvent.focusLost = (ReedlineEvent.none, s) ∧
    s.parseEvent (RawEvent.paste body) =
      (ReedlineEvent.edit [EditCommand.insertString (replaceCR (replaceCRLF body))], s) :=
  ⟨rfl, rfl, rfl, rfl, rfl⟩

/-- C9: no input event changes the two keybinding tables (nor the unused
previous-event field); only mode, cache, flag and char-search memory ever
change. -/
theorem c9_frame_keybindings (s : Vi) (e : RawEvent) :
    ((s.parseEvent e).2).insert_keybindings = s.insert_keybindings ∧
    ((s.parseEvent e).2).normal_keybindings = s.normal_keybindings ∧
    ((s.parseEvent e).2).previous = s.previous :=
  vi_frame s e

/-- C10: Escape or Enter delivered with a non-empty modifier set is routed to
the active mode's keybinding table, emitting the bound event or no-op, and
the state, in particular cache and mode, is unchanged. -/
theorem c10_modified_esc_enter (s : Vi) (mods : KeyModifiers)
    (h : mods ≠ KeyModifiers.NONE) :
    s.parseEvent (RawEvent.key mods KeyCode.esc) =
      ((s.activeKeybindings.findBinding mods KeyCode.esc).getD ReedlineEvent.none, s) ∧
    s.parseEvent (RawEvent.key mods KeyCode.enter) =
      ((s.activeKeybindings.findBinding mods KeyCode.enter).getD ReedlineEvent.none, s) := by
  cases hm : s.mode <;> constructor <;>
    simp [Vi.parseEvent, hm, viFallback, Vi.activeKeybindings, h]

/-- C10 witness: shift + Escape and shift + Enter in a fresh interpreter with
empty tables yield no-op and leave the state unchanged. -/
theorem c10_witness :
    (Vi.new [] []).parseEvent (RawEvent.key KeyModifiers.SHIFT KeyCode.esc) =
      (ReedlineEvent.none, Vi.new [] []) ∧
    (Vi.new [] []).parseEvent (RawEvent.key KeyModifiers.SHIFT KeyCode.enter) =
      (ReedlineEvent.none, Vi.new [] []) := by
  have h := c10_modified_esc_enter (Vi.new [] []) KeyModifiers.SHIFT (by decide)
  exact ⟨h.1, h.2⟩


end Reedline
